import Mathlib

/-
Verification of the tiny-agent repository (src/tools.ts, src/index.ts).

Shallow embedding conventions:
  * JavaScript strings are Lean String / List Char.
  * A thrown JS exception is modelled as Except.error carrying the
    exception's message string; an async function that resolves is .ok.
  * The file system is a flat association list from path to content;
    directory structure (fs.mkdir, fs.readdir, walk) and process
    execution (child_process.exec) are external primitives and appear
    as oracle fields of the World structure.
-/

/-! ## String scanning (model of JavaScript String.prototype.indexOf) -/

/-- Boolean test that the pattern is an initial segment of the list. -/
def startsWith : List Char → List Char → Bool
  | [], _ => true
  | _ :: _, [] => false
  | p :: ps, c :: cs => p == c && startsWith ps cs

/-- Model of JS content.indexOf(pat): index of the first occurrence of
pat in s, none when absent.  "".indexOf("") = 0 is reproduced. -/
def firstIdx (pat : List Char) : List Char → Option Nat
  | [] => if startsWith pat [] then some 0 else none
  | c :: rest =>
    if startsWith pat (c :: rest) then some 0
    else (firstIdx pat rest).map (· + 1)

/-- Model of JS content.split(sep) for a single-character separator. -/
def splitOnChar (sep : Char) : List Char → List (List Char)
  | [] => [[]]
  | c :: rest =>
    match splitOnChar sep rest with
    | [] => [[c]]
    | l :: ls => if c = sep then [] :: l :: ls else (c :: l) :: ls

/-! ## The file system / external world -/

/-- Options bag of the runCommand tool (cwd / env / timeout), carried
opaquely: the embedding never inspects it, exactly as index.ts only
forwards it to execAsync. -/
structure RunOpts where
  cwd : Option String := none
  env : Option (List (String × String)) := none
  timeoutMs : Option Nat := none
deriving DecidableEq

/-- First-match association-list lookup: the observable behaviour of
reading path → content out of the flat file store. -/
def lookupA : List (String × String) → String → Option String
  | [], _ => none
  | (k, v) :: rest, key => if k = key then some v else lookupA rest key

/-- The world a tool call runs against: the flat file store plus oracles
for the file-system and process primitives the repository calls but does
not implement (fs.readdir entries, the recursive walk enumeration, and
child_process.exec).  An oracle's .error is the exception the primitive
would reject with. -/
structure World where
  files : List (String × String)
  dirEntries : String → Except String (List String)
  walkFiles : String → Except String (List String)
  exec : String → Option RunOpts → Except String (String × String)

/-! ## Tool Library (src/tools.ts) -/

/-- Node's rejection message for reading a missing file, as formatError
would render it. -/
def enoent (fp : String) : String :=
  "ENOENT: no such file or directory, open " ++ fp

/-- tools.ts readFile: fs.readFile(filePath, "utf8"). -/
def readFileT (fp : String) (w : World) : Except String String :=
  match lookupA w.files fp with
  | some c => .ok c
  | none => .error (enoent fp)

/-- tools.ts writeFile: mkdir -p of the parent then fs.writeFile,
overwriting any existing file.  In the flat store both effects are the
prepend, which shadows any earlier binding of the path. -/
def writeFileT (fp content : String) (w : World) : World :=
  { w with files := (fp, content) :: w.files }

/-- tools.ts editFile: read the file, locate the first occurrence of
oldText by exact substring search (content.indexOf), throw
"oldText not found" when absent, otherwise write back
content.slice(0, i) + newText + content.slice(i + oldText.length). -/
def editFileT (fp oldText newText : String) (w : World) : Except String World :=
  match readFileT fp w with
  | .error e => .error e
  | .ok content =>
    match firstIdx oldText.data content.data with
    | none => .error "oldText not found"
    | some i =>
      .ok (writeFileT fp
        (String.mk (content.data.take i ++ newText.data
          ++ content.data.drop (i + oldText.data.length))) w)

/-- tools.ts listDir: fs.readdir with file types, names suffixed with /
for directories; the readdir call and the suffixing live in the
dirEntries oracle since the store is flat. -/
def listDirT (dirPath : String) (w : World) : Except String (List String) :=
  w.dirEntries dirPath

/-! ## searchInFiles (src/tools.ts) -/

/-- One entry of the array searchInFiles returns:
file path, 1-based line number, exact line text. -/
structure SearchMatch where
  file : String
  line : Nat
  text : String
deriving DecidableEq

/-- Stateless literal-pattern line test: regex.test(line) for a fresh
global regex built from a pattern with no metacharacters, i.e. the line
contains the pattern as a substring. -/
def lineMatches (pat line : List Char) : Bool :=
  (firstIdx pat line).isSome

/-- Model of regex.test(line) on a global literal regex carrying its
lastIndex: the search starts at lastIndex; on success lastIndex moves to
the end of the match, on failure it resets to 0. -/
def gTest (pat line : List Char) (lastIndex : Nat) : Bool × Nat :=
  match firstIdx pat (line.drop lastIndex) with
  | some i => (true, lastIndex + i + pat.length)
  | none => (false, 0)

/-- The lines.forEach body of searchInFiles: test each line with the
shared global regex, record a match as (file, index + 1, line), and
execute the source's explicit reset of regex.lastIndex to 0 after every
line.  Returns the matches of this file and the regex state left for
the next file. -/
def searchFileSt (pat : List Char) (file : String) :
    List (List Char) → Nat → Nat → List SearchMatch × Nat
  | [], _, lastIndex => ([], lastIndex)
  | l :: rest, idx, lastIndex =>
    let t := gTest pat l lastIndex
    let r := searchFileSt pat file rest (idx + 1) 0
    (if t.1 then ⟨file, idx + 1, String.mk l⟩ :: r.1 else r.1, r.2)

/-- The per-file loop of searchInFiles over the walk's file list: each
file is read from the store, unreadable files are silently skipped, the
content is split on newline and scanned, and the single regex object's
state is threaded from file to file. -/
def searchWalk (pat : List Char) (w : World) :
    List String → Nat → List SearchMatch × Nat
  | [], lastIndex => ([], lastIndex)
  | f :: rest, lastIndex =>
    match lookupA w.files f with
    | none => searchWalk pat w rest lastIndex
    | some content =>
      let r := searchFileSt pat f (splitOnChar (Char.ofNat 10) content.data) 0 lastIndex
      let r2 := searchWalk pat w rest r.2
      (r.1 ++ r2.1, r2.2)

/-- tools.ts searchInFiles for a string pattern without metacharacters:
build the global regex (lastIndex 0), enumerate files by walk, scan
each.  A walk failure (fs.readdir rejection) is the one uncaught path. -/
def searchInFilesT (pat : String) (dirPath : String) (w : World) :
    Except String (List SearchMatch) :=
  match w.walkFiles dirPath with
  | .error e => .error e
  | .ok files => .ok (searchWalk pat.data w files 0).1

/-- Specification-side stateless scan of one file: a match for exactly
the lines that contain the pattern, applied per physical line. -/
def searchFilePure (pat : List Char) (file : String) :
    List (List Char) → Nat → List SearchMatch
  | [], _ => []
  | l :: rest, idx =>
    (if lineMatches pat l then [⟨file, idx + 1, String.mk l⟩] else [])
      ++ searchFilePure pat file rest (idx + 1)

/-- Specification-side stateless scan of a file list. -/
def searchWalkPure (pat : List Char) (w : World) : List String → List SearchMatch
  | [] => []
  | f :: rest =>
    (match lookupA w.files f with
     | none => []
     | some content => searchFilePure pat f (splitOnChar (Char.ofNat 10) content.data) 0)
      ++ searchWalkPure pat w rest

/-- tools.ts runCommand: promisified exec with the forwarded options,
resolving to the pair (stdout, stderr); non-zero exit or timeout is the
oracle's .error carrying the rejection's message. -/
def runCommandT (command : String) (options : Option RunOpts) (w : World) :
    Except String (String × String) :=
  w.exec command options

/-! ## Tool Registry and Dispatcher (src/index.ts) -/

/-- A JSON value sitting in a ToolInput field: either a string or some
non-string value, which requireString rejects without inspecting. -/
inductive JVal where
  | str (s : String)
  | other
deriving DecidableEq

/-- The raw value of the options field: an object (carried as RunOpts)
or any non-object value, which runTool replaces by undefined. -/
inductive OptVal where
  | obj (o : RunOpts)
  | nonObj
deriving DecidableEq

/-- The ToolInput record of index.ts: every field optional and untyped
until requireString checks it. -/
structure ToolInput where
  filePath : Option JVal := none
  content : Option JVal := none
  oldText : Option JVal := none
  newText : Option JVal := none
  dirPath : Option JVal := none
  pattern : Option JVal := none
  command : Option JVal := none
  options : Option OptVal := none
deriving DecidableEq

/-- The untrusted toolUse.input payload before normalizeToolInput: an
object (read as a ToolInput) or any non-object value. -/
inductive InputVal where
  | obj (t : ToolInput)
  | nonObj
deriving DecidableEq

/-- index.ts normalizeToolInput: pass objects through, turn anything
else into the empty bag. -/
def normalizeToolInput : InputVal → ToolInput
  | .obj t => t
  | .nonObj => {}

/-- index.ts requireString: throw new Error(invalidMsg name) unless the
value is present and a string. -/
def requireString (value : Option JVal) (name : String) : Except String String :=
  match value with
  | some (.str s) => .ok s
  | _ => .error ("Invalid " ++ name)

/-- Minimal model of JSON string quoting as JSON.stringify performs it
(backslash, quote and the common control characters escaped). -/
def jsonEscChar (c : Char) : String :=
  if c = Char.ofNat 92 then "\\\\"
  else if c = Char.ofNat 34 then "\\\""
  else if c = Char.ofNat 10 then "\\n"
  else if c = Char.ofNat 13 then "\\r"
  else if c = Char.ofNat 9 then "\\t"
  else String.mk [c]

/-- JSON string literal for s. -/
def jsonStr (s : String) : String :=
  "\"" ++ String.join (s.data.map jsonEscChar) ++ "\""

/-- JSON.stringify(xs, null, 2) for an array of strings. -/
def jsonStrArray (xs : List String) : String :=
  if xs.isEmpty then "[]"
  else "[\n" ++ String.intercalate ",\n" (xs.map (fun s => "  " ++ jsonStr s)) ++ "\n]"

/-- JSON.stringify rendering of one search match object at array depth. -/
def jsonMatchObj (m : SearchMatch) : String :=
  "  \x7b\n    \"file\": " ++ jsonStr m.file ++ ",\n    \"line\": "
    ++ toString m.line ++ ",\n    \"text\": " ++ jsonStr m.text ++ "\n  \x7d"

/-- JSON.stringify(ms, null, 2) for the search result array. -/
def jsonMatchArray (ms : List SearchMatch) : String :=
  if ms.isEmpty then "[]"
  else "[\n" ++ String.intercalate ",\n" (ms.map jsonMatchObj) ++ "\n]"

/-- JSON.stringify of the runCommand result object. -/
def jsonCmdObj (r : String × String) : String :=
  "\x7b\n  \"stdout\": " ++ jsonStr r.1 ++ ",\n  \"stderr\": " ++ jsonStr r.2 ++ "\n\x7d"

/-- index.ts runTool followed by the caller's normalization of the
result to a string (strings pass through verbatim, structured results
go through JSON.stringify(result, null, 2)).  Every JS throw along the
way is an .error carrying the message; .ok returns the Tool Result
content together with the world left by the side effects. -/
def runTool (name : String) (input : ToolInput) (w : World) :
    Except String (String × World) :=
  if name = "readFile" then do
    let fp ← requireString input.filePath "filePath"
    let c ← readFileT fp w
    pure (c, w)
  else if name = "writeFile" then do
    let fp ← requireString input.filePath "filePath"
    let content ← requireString input.content "content"
    pure ("ok", writeFileT fp content w)
  else if name = "editFile" then do
    let fp ← requireString input.filePath "filePath"
    let o ← requireString input.oldText "oldText"
    let n ← requireString input.newText "newText"
    let w2 ← editFileT fp o n w
    pure ("ok", w2)
  else if name = "listDir" then do
    let entries ←
      match input.dirPath with
      | some (.str d) => listDirT d w
      | _ => listDirT "." w
    pure (jsonStrArray entries, w)
  else if name = "searchInFiles" then do
    let pat ← requireString input.pattern "pattern"
    let ms ←
      match input.dirPath with
      | some (.str d) => searchInFilesT pat d w
      | _ => searchInFilesT pat "." w
    pure (jsonMatchArray ms, w)
  else if name = "runCommand" then do
    let command ← requireString input.command "command"
    let options :=
      match input.options with
      | some (.obj o) => some o
      | _ => none
    let r ← runCommandT command options w
    pure (jsonCmdObj r, w)
  else
    .error ("Unknown tool: " ++ name)

/-! ## Conversation data model and Orchestration Loop (src/index.ts) -/

/-- One content block of a model response: free text or a tool call
request (id, name, raw input). -/
inductive Block where
  | text (t : String)
  | toolUse (id : String) (name : String) (input : InputVal)
deriving DecidableEq

/-- One tool_result entry of the synthetic user turn. -/
structure ToolResult where
  tool_use_id : String
  content : String
deriving DecidableEq

/-- Content of a user turn: the prompt text, or the round's results. -/
inductive UserContent where
  | text (t : String)
  | results (rs : List ToolResult)
deriving DecidableEq

/-- One turn of the Conversation. -/
inductive Message where
  | user (c : UserContent)
  | assistant (blocks : List Block)
deriving DecidableEq

/-- A tool call request extracted from a response. -/
structure ToolUse where
  id : String
  name : String
  input : InputVal
deriving DecidableEq

/-- response.content.filter(block => block.type === tool_use). -/
def toolUsesOf (blocks : List Block) : List ToolUse :=
  blocks.filterMap fun b =>
    match b with
    | .toolUse id name input => some ⟨id, name, input⟩
    | _ => none

/-- The returned text of a final response: filter the text blocks, take
their text, join with the empty separator. -/
def concatTexts (blocks : List Block) : String :=
  String.join (blocks.filterMap fun b =>
    match b with
    | .text t => some t
    | _ => none)

/-- One onToolLog record: tool name, normalized input, rendered output. -/
structure ToolLogEntry where
  name : String
  input : ToolInput
  output : String
deriving DecidableEq

/-- The completion service, abstracted as in the spec: the conversation
determines the next response's content blocks.  Transport failures are
out of scope. -/
def Service : Type := List Message → List Block

/-- Outcome of dispatching one round's tool calls: the onToolLog
entries that fired (also on a later failure) and either the error that
escaped or the tool_result list and the world after the side effects. -/
structure DispatchOut where
  log : List ToolLogEntry
  outcome : Except String (List ToolResult × World)

/-- The round's dispatch loop of runWithTools: strictly sequential, one
runTool per tool use, normalizeToolInput then runTool, log entry and
tool_result pushed on success, a throw aborting the rest of the round. -/
def dispatchAll : List ToolUse → World → DispatchOut
  | [], w => ⟨[], .ok ([], w)⟩
  | tu :: rest, w =>
    let inp := normalizeToolInput tu.input
    match runTool tu.name inp w with
    | .error e => ⟨[], .error e⟩
    | .ok (content, w2) =>
      let d := dispatchAll rest w2
      ⟨⟨tu.name, inp, content⟩ :: d.log,
        match d.outcome with
        | .error e => .error e
        | .ok (rs, w3) => .ok (⟨tu.id, content⟩ :: rs, w3)⟩

/-- The sentinel returned when the round budget is exhausted. -/
def limitMsg : String := "Tool loop limit reached"

/-- Observable outcome of runWithTools: the returned text or escaped
error, the onToolLog trace, and the number of completion requests made. -/
structure LoopOut where
  result : Except String String
  log : List ToolLogEntry
  rounds : Nat

/-- The for loop of runWithTools with its remaining iteration budget as
fuel (the source runs i = 0..5, i.e. fuel 6).  Each iteration calls the
service on the current conversation, returns the joined text when the
response holds no tool_use block, otherwise dispatches every call in
order and, when all succeed, appends the assistant turn and one user
turn holding the round's tool_results, then continues; a dispatch error
escapes the function.  Exhausted fuel returns the sentinel. -/
def runLoop (svc : Service) : Nat → List Message → World → LoopOut
  | 0, _, _ => ⟨.ok limitMsg, [], 0⟩
  | fuel + 1, msgs, w =>
    let content := svc msgs
    let tus := toolUsesOf content
    if tus.isEmpty then ⟨.ok (concatTexts content), [], 1⟩
    else
      let d := dispatchAll tus w
      match d.outcome with
      | .error e => ⟨.error e, d.log, 1⟩
      | .ok (results, w2) =>
        let rest := runLoop svc fuel
          (msgs ++ [.assistant content, .user (.results results)]) w2
        ⟨rest.result, d.log ++ rest.log, 1 + rest.rounds⟩

/-- index.ts runWithTools: start from the single user turn holding the
prompt, budget of six rounds. -/
def runWithTools (prompt : String) (svc : Service) (w : World) : LoopOut :=
  runLoop svc 6 [.user (.text prompt)] w

/-! ## Concrete worlds and services used as test inputs -/

/-- A world with no files and failing primitives. -/
def wEmpty : World :=
  { files := []
    dirEntries := fun _ => .error "eperm"
    walkFiles := fun _ => .error "eperm"
    exec := fun _ _ => .error "execfail" }

/-- A completion service that always requests readFile with an empty
argument bag (filePath missing). -/
def svcReadMissing : Service := fun _ => [Block.toolUse "call_1" "readFile" (.obj {})]

/-- A completion service that always requests one well-formed writeFile
call, which always succeeds. -/
def svcWriteOk : Service := fun _ =>
  [Block.toolUse "call_1" "writeFile"
    (.obj { filePath := some (.str "a"), content := some (.str "b") })]

/-- A completion service whose every response is a single text block. -/
def svcTextOnly : Service := fun _ => [Block.text "hello"]

/-- A world holding one file "f" with content "xoyoz". -/
def wEdit : World := { wEmpty with files := [("f", "xoyoz")] }

/-- A world holding one file "g" with content "ab". -/
def wEdit2 : World := { wEmpty with files := [("g", "ab")] }

/-- A world whose walk of "." finds one file of three lines. -/
def wSearch : World :=
  { wEmpty with
    files := [("./a.txt", "foo bar\nbaz\nfoofoo")]
    walkFiles := fun d => if d = "." then .ok ["./a.txt"] else .error "eperm" }

/-! ## Lemmas about the substring scanner -/

/-- startsWith is exactly the prefix decomposition. -/
theorem startsWith_iff (p s : List Char) :
    startsWith p s = true ↔ ∃ t, s = p ++ t := by
  induction p generalizing s with
  | nil => simp [startsWith]
  | cons x ps ih =>
    cases s with
    | nil => simp [startsWith]
    | cons c cs =>
      simp only [startsWith, Bool.and_eq_true, beq_iff_eq, List.cons_append,
        List.cons.injEq, ih]
      constructor
      · rintro ⟨rfl, t, rfl⟩
        exact ⟨t, rfl, rfl⟩
      · rintro ⟨t, rfl, rfl⟩
        exact ⟨rfl, t, rfl⟩

/-- A match at the front gives index zero. -/
theorem firstIdx_of_startsWith (p s : List Char) (h : startsWith p s = true) :
    firstIdx p s = some 0 := by
  cases s <;> simp [firstIdx, h]

/-- The empty pattern is found at index zero in every string, as with
JS indexOf. -/
theorem firstIdx_nil (s : List Char) : firstIdx [] s = some 0 := by
  cases s <;> simp [firstIdx, startsWith]

/-- A found index is a genuine occurrence: the string decomposes around
the pattern at that index. -/
theorem firstIdx_decomp (p : List Char) :
    ∀ (s : List Char) (i : Nat), firstIdx p s = some i →
      ∃ a b, s = a ++ (p ++ b) ∧ a.length = i := by
  intro s
  induction s with
  | nil =>
    intro i h
    simp only [firstIdx] at h
    split at h
    · next hs =>
      obtain ⟨t, ht⟩ := (startsWith_iff p []).mp hs
      obtain ⟨rfl, rfl⟩ := List.append_eq_nil.mp ht.symm
      cases h
      exact ⟨[], [], rfl, rfl⟩
    · cases h
  | cons c cs ih =>
    intro i h
    simp only [firstIdx] at h
    split at h
    · next hs =>
      obtain ⟨t, ht⟩ := (startsWith_iff p (c :: cs)).mp hs
      cases h
      exact ⟨[], t, by simpa using ht, rfl⟩
    · cases hx : firstIdx p cs with
      | none => rw [hx] at h; cases h
      | some j =>
        rw [hx] at h
        obtain ⟨a, b, hab, hlen⟩ := ih j hx
        refine ⟨c :: a, b, by simp [hab], ?_⟩
        simp only [Option.map_some'] at h
        cases h
        simp [hlen]

/-- Every occurrence makes the scan succeed (no occurrence is missed). -/
theorem firstIdx_isSome (p : List Char) :
    ∀ (a b : List Char), (firstIdx p (a ++ (p ++ b))).isSome = true := by
  intro a
  induction a with
  | nil =>
    intro b
    have hs : startsWith p (p ++ b) = true :=
      (startsWith_iff p (p ++ b)).mpr ⟨b, rfl⟩
    simp only [List.nil_append]
    rw [firstIdx_of_startsWith p _ hs]
    rfl
  | cons c a2 ih =>
    intro b
    simp only [List.cons_append]
    cases hsw : startsWith p (c :: (a2 ++ (p ++ b))) with
    | true =>
      rw [firstIdx_of_startsWith p _ hsw]
      rfl
    | false =>
      have heq : firstIdx p (c :: (a2 ++ (p ++ b)))
          = (firstIdx p (a2 ++ (p ++ b))).map (· + 1) := by
        simp [firstIdx, hsw]
      rw [heq]
      cases hx : firstIdx p (a2 ++ (p ++ b)) with
      | none =>
        have hcontra := ih b
        rw [hx] at hcontra
        exact absurd hcontra (by simp)
      | some j => rfl

/-- The scan fails exactly when there is no occurrence. -/
theorem firstIdx_none_iff (p s : List Char) :
    firstIdx p s = none ↔ ¬ ∃ a b, s = a ++ (p ++ b) := by
  constructor
  · rintro h ⟨a, b, rfl⟩
    have := firstIdx_isSome p a b
    rw [h] at this
    cases this
  · intro h
    cases hx : firstIdx p s with
    | none => rfl
    | some i =>
      obtain ⟨a, b, hab, -⟩ := firstIdx_decomp p s i hx
      exact absurd ⟨a, b, hab⟩ h

/-- The scan returns the first occurrence: at the decomposition of
minimal prefix length, the returned index is that prefix's length. -/
theorem firstIdx_min (p : List Char) :
    ∀ (a b : List Char),
      (∀ a2 b2, a2 ++ (p ++ b2) = a ++ (p ++ b) → a.length ≤ a2.length) →
      firstIdx p (a ++ (p ++ b)) = some a.length := by
  intro a
  induction a with
  | nil =>
    intro b _
    simp only [List.nil_append]
    exact firstIdx_of_startsWith p _ ((startsWith_iff p _).mpr ⟨b, rfl⟩)
  | cons c a2 ih =>
    intro b hmin
    simp only [List.cons_append] at hmin ⊢
    have hsw : startsWith p (c :: (a2 ++ (p ++ b))) = false := by
      cases hsw : startsWith p (c :: (a2 ++ (p ++ b))) with
      | false => rfl
      | true =>
        obtain ⟨t, ht⟩ := (startsWith_iff p _).mp hsw
        have h0 := hmin [] t (by simpa using ht.symm)
        simp at h0
    have heq : firstIdx p (c :: (a2 ++ (p ++ b)))
        = (firstIdx p (a2 ++ (p ++ b))).map (· + 1) := by
      simp [firstIdx, hsw]
    have hrec : firstIdx p (a2 ++ (p ++ b)) = some a2.length := by
      refine ih b ?_
      intro a3 b3 h3
      have h4 := hmin (c :: a3) b3 (by simp [h3])
      simpa using h4
    rw [heq, hrec]
    simp

/-- Rebuilding a string from concatenated character data is string
append. -/
theorem mk_data_append (s t : String) : String.mk (s.data ++ t.data) = s ++ t := by
  cases s
  cases t
  rfl

/-! ## Theorems about the Tool Library -/

/-- Claim C6: for every file content containing oldText as a substring,
edit(path, oldText, newText) replaces exactly the first occurrence of
oldText, located by exact substring equality, with newText; the content
before that occurrence and after it — later occurrences of oldText
included, untouched inside b — is unchanged.  The decomposition
content = a ++ oldText ++ b with minimal a is the first occurrence. -/
theorem editFile_first_occurrence
    (fp oldText newText : String) (w : World) (a b : List Char)
    (hread : readFileT fp w = .ok (String.mk (a ++ (oldText.data ++ b))))
    (hmin : ∀ a2 b2, a2 ++ (oldText.data ++ b2) = a ++ (oldText.data ++ b) →
      a.length ≤ a2.length) :
    editFileT fp oldText newText w
      = .ok (writeFileT fp (String.mk (a ++ (newText.data ++ b))) w) := by
  have hidx : firstIdx oldText.data (a ++ (oldText.data ++ b)) = some a.length :=
    firstIdx_min oldText.data a b hmin
  simp only [editFileT, hread]
  rw [hidx]
  have h1 : (a ++ (oldText.data ++ b)).take a.length = a := List.take_left a _
  have h2 : (a ++ (oldText.data ++ b)).drop (a.length + oldText.data.length) = b := by
    rw [← List.append_assoc, ← List.length_append]
    exact List.drop_left _ _
  simp only [h1, h2, List.append_assoc]

/-- Witness for C6: in the file "xoyoz", editing "o" to "n" rewrites
only the first "o"; the later "o" survives in "xnyoz". -/
theorem editFile_first_occurrence_witness :
    readFileT "f" wEdit = .ok "xoyoz"
    ∧ editFileT "f" "o" "n" wEdit = .ok (writeFileT "f" "xnyoz" wEdit) := by
  refine ⟨rfl, ?_⟩
  have h := editFile_first_occurrence "f" "o" "n" wEdit "x".data "yoz".data rfl ?_
  · exact h
  · intro a2 b2 hEq
    cases a2 with
    | nil =>
      simp only [List.nil_append] at hEq
      injection hEq with h1 _
      exact absurd h1 (by decide)
    | cons c t => simp

/-- With a readable file, the NotFoundError outcome of edit is exactly
the absence of oldText from the current content. -/
theorem editFileT_notfound_iff (fp o n : String) (w : World) (content : String)
    (hread : readFileT fp w = .ok content) :
    (editFileT fp o n w = .error "oldText not found"
      ↔ ¬ ∃ a b, content.data = a ++ (o.data ++ b)) := by
  simp only [editFileT, hread]
  cases hx : firstIdx o.data content.data with
  | none =>
    constructor
    · intro _
      exact (firstIdx_none_iff o.data content.data).mp hx
    · intro _
      rfl
  | some i =>
    constructor
    · intro h
      exact Except.noConfusion h
    · intro h
      obtain ⟨a, b, hab, -⟩ := firstIdx_decomp o.data content.data i hx
      exact (h ⟨a, b, hab⟩).elim

/-- Claim C7: edit fails with the NotFoundError message exactly when
oldText is not a substring of the current content (the file being
readable), and after a successful edit a second identical edit fails
with NotFoundError whenever oldText no longer occurs in the updated
content.  On the failing path the source throws before fs.writeFile, so
no world is produced and the file is unchanged. -/
theorem editFile_notfound_iff_and_twice
    (fp o n : String) (w : World) (content : String)
    (hread : readFileT fp w = .ok content) :
    (editFileT fp o n w = .error "oldText not found"
      ↔ ¬ ∃ a b, content.data = a ++ (o.data ++ b))
    ∧ (∀ w2, editFileT fp o n w = .ok w2 →
        ∀ updated, readFileT fp w2 = .ok updated →
          (¬ ∃ a b, updated.data = a ++ (o.data ++ b)) →
          editFileT fp o n w2 = .error "oldText not found") :=
  ⟨editFileT_notfound_iff fp o n w content hread,
   fun w2 _ updated hr2 hnot => (editFileT_notfound_iff fp o n w2 updated hr2).mpr hnot⟩

/-- Witness for C7 at the file "ab" with oldText "a". -/
theorem editFile_notfound_iff_and_twice_witness :
    (editFileT "g" "a" "b" wEdit2 = .error "oldText not found"
      ↔ ¬ ∃ a b, ("ab" : String).data = a ++ (("a" : String).data ++ b))
    ∧ (∀ w2, editFileT "g" "a" "b" wEdit2 = .ok w2 →
        ∀ updated, readFileT "g" w2 = .ok updated →
          (¬ ∃ a b, updated.data = a ++ (("a" : String).data ++ b)) →
          editFileT "g" "a" "b" w2 = .error "oldText not found") :=
  editFile_notfound_iff_and_twice "g" "a" "b" wEdit2 "ab" rfl

/-- Claim C8: write followed by read on the same path returns exactly
the written content, whatever was previously stored at that path (the
new binding shadows any earlier one, i.e. overwrites). -/
theorem write_then_read (fp c : String) (w : World) :
    readFileT fp (writeFileT fp c w) = .ok c := by
  simp [readFileT, writeFileT, lookupA]

/-- Claim C10: with an empty oldText, edit never fails with
NotFoundError on a readable file: indexOf finds the empty string at
index 0, and the file is rewritten to newText prepended to the original
content. -/
theorem editFile_empty_oldText (fp n : String) (w : World) (content : String)
    (hread : readFileT fp w = .ok content) :
    editFileT fp "" n w = .ok (writeFileT fp (n ++ content) w) := by
  simp only [editFileT, hread]
  rw [firstIdx_nil]
  simp only [List.take_zero, List.length_nil, Nat.add_zero, List.drop_zero,
    List.nil_append]
  rw [mk_data_append]

/-- Witness for C10: prepending via an empty oldText on the file "ab". -/
theorem editFile_empty_oldText_witness :
    readFileT "g" wEdit2 = .ok "ab"
    ∧ editFileT "g" "" "b" wEdit2 = .ok (writeFileT "g" "bab" wEdit2) :=
  ⟨rfl, editFile_empty_oldText "g" "b" wEdit2 "ab" rfl⟩

/-! ## Lemmas about the dispatch round and the loop -/

/-- A fully successful round's tool_results carry the requests'
identifiers in request order, and the log names the tools in request
order. -/
theorem dispatchAll_ok_spec (tus : List ToolUse) :
    ∀ (w : World) (rs : List ToolResult) (w2 : World),
      (dispatchAll tus w).outcome = .ok (rs, w2) →
      rs.map ToolResult.tool_use_id = tus.map ToolUse.id
      ∧ (dispatchAll tus w).log.map ToolLogEntry.name = tus.map ToolUse.name := by
  induction tus with
  | nil =>
    intro w rs w2 hok
    simp only [dispatchAll, Except.ok.injEq, Prod.mk.injEq] at hok
    obtain ⟨rfl, rfl⟩ := hok
    exact ⟨rfl, rfl⟩
  | cons tu rest ih =>
    intro w rs w2 hok
    cases hrt : runTool tu.name (normalizeToolInput tu.input) w with
    | error e =>
      simp only [dispatchAll, hrt] at hok
      exact Except.noConfusion hok
    | ok pr =>
      obtain ⟨content, w1⟩ := pr
      simp only [dispatchAll, hrt] at hok ⊢
      cases hd : (dispatchAll rest w1).outcome with
      | error e =>
        rw [hd] at hok
        exact Except.noConfusion hok
      | ok pr2 =>
        obtain ⟨rs2, w3⟩ := pr2
        rw [hd] at hok
        simp only [Except.ok.injEq, Prod.mk.injEq] at hok
        obtain ⟨rfl, rfl⟩ := hok
        obtain ⟨h1, h2⟩ := ih w1 rs2 w3 hd
        simp [h1, h2]

/-- The loop performs at most fuel completion requests. -/
theorem runLoop_rounds_le (svc : Service) :
    ∀ (fuel : Nat) (msgs : List Message) (w : World),
      (runLoop svc fuel msgs w).rounds ≤ fuel := by
  intro fuel
  induction fuel with
  | zero => intro msgs w; exact Nat.le_refl 0
  | succ f ih =>
    intro msgs w
    simp only [runLoop]
    by_cases hemp : (toolUsesOf (svc msgs)).isEmpty = true
    · simp [hemp]
    · have hempty : (toolUsesOf (svc msgs)).isEmpty = false :=
        Bool.not_eq_true _ ▸ Bool.of_not_eq_true hemp
      cases hd : (dispatchAll (toolUsesOf (svc msgs)) w).outcome with
      | error e => simp [hempty, hd]
      | ok pr =>
        obtain ⟨results, w2⟩ := pr
        simp only [hempty, Bool.false_eq_true, if_false, hd]
        have := ih (msgs ++ [.assistant (svc msgs), .user (.results results)]) w2
        omega

/-- When every response requests a tool call and every dispatch
succeeds, the loop consumes its whole budget and returns the sentinel. -/
theorem runLoop_limit (svc : Service)
    (h1 : ∀ msgs, toolUsesOf (svc msgs) ≠ [])
    (h2 : ∀ msgs w, ∃ rs w2,
      (dispatchAll (toolUsesOf (svc msgs)) w).outcome = .ok (rs, w2)) :
    ∀ (fuel : Nat) (msgs : List Message) (w : World),
      (runLoop svc fuel msgs w).result = .ok limitMsg
      ∧ (runLoop svc fuel msgs w).rounds = fuel := by
  intro fuel
  induction fuel with
  | zero => intro msgs w; exact ⟨rfl, rfl⟩
  | succ f ih =>
    intro msgs w
    have hempty : (toolUsesOf (svc msgs)).isEmpty = false := by
      cases hx : toolUsesOf (svc msgs) with
      | nil => exact absurd hx (h1 msgs)
      | cons a l => rfl
    obtain ⟨rs, w2, hok⟩ := h2 msgs w
    simp only [runLoop, hempty, Bool.false_eq_true, if_false, hok]
    have := ih (msgs ++ [.assistant (svc msgs), .user (.results rs)]) w2
    exact ⟨this.1, by omega⟩

/-- One loop step whose response has no tool calls returns immediately
with the joined text, no log, one completion request. -/
theorem runLoop_succ_noTools (svc : Service) (f : Nat) (msgs : List Message)
    (w : World) (h : toolUsesOf (svc msgs) = []) :
    runLoop svc (f + 1) msgs w = ⟨.ok (concatTexts (svc msgs)), [], 1⟩ := by
  simp [runLoop, h]

/-! ## Theorems about the Orchestration Loop -/

/-- Counterexample to claim C1 as stated: dispatching readFile with a
missing filePath argument does not become a Tool Result — the thrown
"Invalid filePath" escapes runWithTools itself (the loop's result is
that error), no Tool Result or log entry exists, and the loop stops
after round 1 instead of continuing. -/
theorem dispatch_error_escapes :
    runWithTools "x" svcReadMissing wEmpty
      = ⟨.error "Invalid filePath", [], 1⟩ := rfl

/-- Claim C1 amended: a tool-level failure inside a round's dispatch is
not absorbed; runWithTools rejects with exactly that failure, keeping
only the log entries of the calls that succeeded before it, and
performs no further rounds. -/
theorem tool_failure_propagates (svc : Service) (fuel : Nat)
    (msgs : List Message) (w : World) (e : String)
    (hne : toolUsesOf (svc msgs) ≠ [])
    (herr : (dispatchAll (toolUsesOf (svc msgs)) w).outcome = .error e) :
    runLoop svc (fuel + 1) msgs w
      = ⟨.error e, (dispatchAll (toolUsesOf (svc msgs)) w).log, 1⟩ := by
  have hempty : (toolUsesOf (svc msgs)).isEmpty = false := by
    cases hx : toolUsesOf (svc msgs) with
    | nil => exact absurd hx hne
    | cons a l => rfl
  simp only [runLoop, hempty, Bool.false_eq_true, if_false, herr]

/-- Witness for amended C1: the concrete failing readFile dispatch. -/
theorem tool_failure_propagates_witness :
    runLoop svcReadMissing (5 + 1) [.user (.text "x")] wEmpty
      = ⟨.error "Invalid filePath",
         (dispatchAll (toolUsesOf (svcReadMissing [.user (.text "x")])) wEmpty).log,
         1⟩ :=
  tool_failure_propagates svcReadMissing 5 [.user (.text "x")] wEmpty
    "Invalid filePath" (fun h => List.noConfusion h) rfl

/-- Counterexample to claim C2 as stated: it is not true that every
completion service whose responses all carry a tool call drives the
loop to the LimitReached sentinel — a service whose tool call fails
makes the loop reject on round 1 instead. -/
theorem loop_limit_claim_false :
    ¬ (∀ (svc : Service) (prompt : String) (w : World),
        (∀ msgs, toolUsesOf (svc msgs) ≠ []) →
        (runWithTools prompt svc w).result = .ok limitMsg) := by
  intro h
  have hc := h svcReadMissing "x" wEmpty (fun msgs hx => List.noConfusion hx)
  have hc2 : Except.error "Invalid filePath" = Except.ok limitMsg := hc
  exact Except.noConfusion hc2

/-- Claim C2 amended: for a completion service whose every response
requests at least one tool call and whose requested calls all dispatch
successfully, runWithTools makes exactly 6 completion requests and
returns the sentinel; and for every service whatsoever the loop never
exceeds 6 rounds. -/
theorem loop_limit_amended (svc : Service) (prompt : String) (w : World)
    (h1 : ∀ msgs, toolUsesOf (svc msgs) ≠ [])
    (h2 : ∀ msgs w2, ∃ rs w3,
      (dispatchAll (toolUsesOf (svc msgs)) w2).outcome = .ok (rs, w3)) :
    (runWithTools prompt svc w).result = .ok limitMsg
    ∧ (runWithTools prompt svc w).rounds = 6
    ∧ ∀ (svc2 : Service) (p2 : String) (w2 : World),
        (runWithTools p2 svc2 w2).rounds ≤ 6 :=
  ⟨(runLoop_limit svc h1 h2 6 [.user (.text prompt)] w).1,
   (runLoop_limit svc h1 h2 6 [.user (.text prompt)] w).2,
   fun svc2 p2 w2 => runLoop_rounds_le svc2 6 [.user (.text p2)] w2⟩

/-- Witness for amended C2: a service always requesting one valid
writeFile call runs all 6 rounds to the sentinel. -/
theorem loop_limit_amended_witness :
    (runWithTools "go" svcWriteOk wEmpty).result = .ok limitMsg
    ∧ (runWithTools "go" svcWriteOk wEmpty).rounds = 6
    ∧ ∀ (svc2 : Service) (p2 : String) (w2 : World),
        (runWithTools p2 svc2 w2).rounds ≤ 6 :=
  loop_limit_amended svcWriteOk "go" wEmpty
    (fun msgs hx => List.noConfusion hx)
    (fun msgs w2 => ⟨[⟨"call_1", "ok"⟩], writeFileT "a" "b" w2, rfl⟩)

/-- Claim C3: the loop returns text only out of a response carrying
zero tool calls — every non-sentinel success is the joined text of some
response of the service whose tool-call list is empty, so text blocks
accompanying tool calls never reach the return value. -/
theorem text_only_from_toolless_response (svc : Service) :
    ∀ (fuel : Nat) (msgs : List Message) (w : World) (s : String),
      (runLoop svc fuel msgs w).result = .ok s →
      s = limitMsg
      ∨ ∃ msgs2, toolUsesOf (svc msgs2) = [] ∧ s = concatTexts (svc msgs2) := by
  intro fuel
  induction fuel with
  | zero =>
    intro msgs w s hok
    simp only [runLoop, Except.ok.injEq] at hok
    exact Or.inl hok.symm
  | succ f ih =>
    intro msgs w s hok
    by_cases hemp : (toolUsesOf (svc msgs)).isEmpty = true
    · right
      refine ⟨msgs, List.isEmpty_iff.mp hemp, ?_⟩
      simp only [runLoop, hemp, if_true, Except.ok.injEq] at hok
      exact hok.symm
    · have hempty : (toolUsesOf (svc msgs)).isEmpty = false :=
        Bool.not_eq_true _ ▸ Bool.of_not_eq_true hemp
      cases hd : (dispatchAll (toolUsesOf (svc msgs)) w).outcome with
      | error e =>
        simp only [runLoop, hempty, Bool.false_eq_true, if_false, hd] at hok
        exact Except.noConfusion hok
      | ok pr =>
        obtain ⟨results, w2⟩ := pr
        simp only [runLoop, hempty, Bool.false_eq_true, if_false, hd] at hok
        exact ih _ w2 s hok

/-- Witness for C3: with an always-text service the returned "hello"
is indeed the joined text of a tool-call-free response. -/
theorem text_only_from_toolless_response_witness :
    "hello" = limitMsg
    ∨ ∃ msgs2, toolUsesOf (svcTextOnly msgs2) = []
        ∧ "hello" = concatTexts (svcTextOnly msgs2) :=
  text_only_from_toolless_response svcTextOnly 6 [.user (.text "hi")] wEmpty
    "hello" rfl

/-- Claim C4: when a round's dispatch completes, its tool_results carry
exactly the requests' identifiers in request order (hence one result
per request), and the loop step appends precisely the assistant turn
followed by one user turn holding those results before continuing;
dispatch is sequential by the very recursion of dispatchAll. -/
theorem round_results_align (tus : List ToolUse) (w : World)
    (rs : List ToolResult) (w2 : World)
    (hok : (dispatchAll tus w).outcome = .ok (rs, w2)) :
    rs.map ToolResult.tool_use_id = tus.map ToolUse.id
    ∧ rs.length = tus.length
    ∧ ∀ (svc : Service) (fuel : Nat) (msgs : List Message),
        toolUsesOf (svc msgs) = tus → tus ≠ [] →
        runLoop svc (fuel + 1) msgs w
          = ⟨(runLoop svc fuel
                (msgs ++ [.assistant (svc msgs), .user (.results rs)]) w2).result,
             (dispatchAll tus w).log
               ++ (runLoop svc fuel
                    (msgs ++ [.assistant (svc msgs), .user (.results rs)]) w2).log,
             1 + (runLoop svc fuel
                    (msgs ++ [.assistant (svc msgs), .user (.results rs)]) w2).rounds⟩ := by
  obtain ⟨hmap, -⟩ := dispatchAll_ok_spec tus w rs w2 hok
  refine ⟨hmap, ?_, ?_⟩
  · have := congrArg List.length hmap
    simpa using this
  · intro svc fuel msgs hsvc hne
    have hempty : (toolUsesOf (svc msgs)).isEmpty = false := by
      rw [hsvc]
      cases tus with
      | nil => exact absurd rfl hne
      | cons a l => rfl
    rw [hsvc] at hempty
    simp only [runLoop, hsvc, hempty, Bool.false_eq_true, if_false, hok]

/-- Witness for C4: the one-call writeFile round. -/
theorem round_results_align_witness :
    ([⟨"call_1", "ok"⟩] : List ToolResult).map ToolResult.tool_use_id
        = (toolUsesOf (svcWriteOk [])).map ToolUse.id
    ∧ ([⟨"call_1", "ok"⟩] : List ToolResult).length
        = (toolUsesOf (svcWriteOk [])).length
    ∧ ∀ (svc : Service) (fuel : Nat) (msgs : List Message),
        toolUsesOf (svc msgs) = toolUsesOf (svcWriteOk []) →
        toolUsesOf (svcWriteOk []) ≠ [] →
        runLoop svc (fuel + 1) msgs wEmpty
          = ⟨(runLoop svc fuel
                (msgs ++ [.assistant (svc msgs),
                  .user (.results [⟨"call_1", "ok"⟩])]) (writeFileT "a" "b" wEmpty)).result,
             (dispatchAll (toolUsesOf (svcWriteOk [])) wEmpty).log
               ++ (runLoop svc fuel
                    (msgs ++ [.assistant (svc msgs),
                      .user (.results [⟨"call_1", "ok"⟩])]) (writeFileT "a" "b" wEmpty)).log,
             1 + (runLoop svc fuel
                    (msgs ++ [.assistant (svc msgs),
                      .user (.results [⟨"call_1", "ok"⟩])]) (writeFileT "a" "b" wEmpty)).rounds⟩ :=
  round_results_align (toolUsesOf (svcWriteOk [])) wEmpty
    [⟨"call_1", "ok"⟩] (writeFileT "a" "b" wEmpty) rfl

/-- Claim C5: a first response with zero tool calls ends the loop on
round 1 with the concatenation of its text blocks in order and an empty
tool log. -/
theorem first_response_no_tools (prompt : String) (svc : Service) (w : World)
    (h : toolUsesOf (svc [.user (.text prompt)]) = []) :
    runWithTools prompt svc w
      = ⟨.ok (concatTexts (svc [.user (.text prompt)])), [], 1⟩ :=
  runLoop_succ_noTools svc 5 [.user (.text prompt)] w h

/-- Witness for C5: the always-text service returns "hello" at once. -/
theorem first_response_no_tools_witness :
    toolUsesOf (svcTextOnly [.user (.text "hi")]) = []
    ∧ runWithTools "hi" svcTextOnly wEmpty
        = ⟨.ok (concatTexts (svcTextOnly [.user (.text "hi")])), [], 1⟩ :=
  ⟨rfl, first_response_no_tools "hi" svcTextOnly wEmpty rfl⟩

/-! ## Theorems about searchInFiles -/

/-- Scanning one file with the regex state entering at 0 is the
stateless per-line scan, and the state leaves at 0 for the next file:
the reset of lastIndex after every line erases all match-position
carry-over. -/
theorem searchFileSt_stateless (pat : List Char) (file : String) :
    ∀ (lines : List (List Char)) (idx : Nat),
      searchFileSt pat file lines idx 0 = (searchFilePure pat file lines idx, 0) := by
  intro lines
  induction lines with
  | nil => intro idx; rfl
  | cons l rest ih =>
    intro idx
    have hg : (gTest pat l 0).1 = lineMatches pat l := by
      simp only [gTest, lineMatches, List.drop_zero]
      cases firstIdx pat l <;> rfl
    simp only [searchFileSt, searchFilePure, ih (idx + 1), hg]
    cases hm : lineMatches pat l <;> simp

/-- Scanning the walked file list with the fresh regex (lastIndex 0) is
the stateless scan of every file independently. -/
theorem searchWalk_stateless (pat : List Char) (w : World) :
    ∀ (files : List String),
      searchWalk pat w files 0 = (searchWalkPure pat w files, 0) := by
  intro files
  induction files with
  | nil => rfl
  | cons f rest ih =>
    simp only [searchWalk, searchWalkPure]
    cases hl : lookupA w.files f with
    | none => simpa using ih
    | some content =>
      simp only [searchFileSt_stateless, ih]

/-- Claim C9: the pattern applies per physical line with the internal
match-position state reset between lines and files, so no match is
skipped — the stateful scan equals the stateless per-line scan — and
searching "foo" under "." over a tree containing the file of lines
"foo bar" / "baz" / "foofoo" yields exactly the matches at 1-based
lines 1 and 3 carrying the exact original line text. -/
theorem search_per_line_and_example :
    (∀ (pat : List Char) (w : World) (files : List String),
        searchWalk pat w files 0 = (searchWalkPure pat w files, 0))
    ∧ searchInFilesT "foo" "." wSearch
        = .ok [⟨"./a.txt", 1, "foo bar"⟩, ⟨"./a.txt", 3, "foofoo"⟩] :=
  ⟨fun pat w files => searchWalk_stateless pat w files, rfl⟩
